import Mathlib

/-!
Verification development for the erofs-rs read-only EROFS driver
(crate erofs-sys).  The Rust sources are shallowly embedded: machine
integers become `Nat` with explicit wrapping where the Rust code can
overflow or underflow, fallible operations return `Except Errno`, and a
Rust panic (out-of-bounds slice index, `unwrap` of `None`, `todo!()`) is
modelled as `Option.none` at the outermost layer.
-/

namespace Erofs

/-- Word bounds for the machine integers used by the crate. -/
def U16 : Nat := 2 ^ 16

def U32 : Nat := 2 ^ 32

def U64 : Nat := 2 ^ 64

/-- Wrapping 64-bit subtraction: for `a b < U64` this agrees with Rust
release-mode `u64` subtraction `a.wrapping_sub(b)`. -/
def wsub64 (a b : Nat) : Nat := if b ≤ a then a - b else a + U64 - b

/-- Wrapping 32-bit subtraction (Rust release-mode `u32`). -/
def wsub32 (a b : Nat) : Nat := if b ≤ a then a - b else a + U32 - b

/-- Wrapping 16-bit subtraction (Rust release-mode `u16`). -/
def wsub16 (a b : Nat) : Nat := if b ≤ a then a - b else a + U16 - b

/-- Embedding of the crate's `round!(UP, x, y)` macro. -/
def roundUp (x y : Nat) : Nat := (x + y - 1) / y * y

/-- Little-endian 16-bit value from two bytes. -/
def le16 (b0 b1 : Nat) : Nat := b0 + 256 * b1

/-- Little-endian 32-bit value from four bytes. -/
def le32 (b0 b1 b2 b3 : Nat) : Nat := b0 + 256 * b1 + 65536 * b2 + 16777216 * b3

/-- Little-endian 64-bit value from eight bytes. -/
def le64 (b0 b1 b2 b3 b4 b5 b6 b7 : Nat) : Nat :=
  le32 b0 b1 b2 b3 + 4294967296 * le32 b4 b5 b6 b7

/-- The POSIX error kinds used by the crate (errnos.rs); only the
variants that appear in the embedded code paths are listed. -/
inductive Errno where
  | EIO
  | ENOMEM
  | ENODEV
  | EINVAL
  | ERANGE
  | ENODATA
  | ENOENT
  | EUCLEAN
  | EOPNOTSUPP
  deriving DecidableEq, Repr

/-- Embedding of `superblock.rs` struct `SuperBlock`.  Signed on-disk
fields are stored as their raw little-endian unsigned value; the sign
extension performed by Rust's `as Off` casts is applied at use sites. -/
structure SuperBlock where
  magic : Nat
  checksum : Nat
  feature_compat : Nat
  blkszbits : Nat
  sb_extslots : Nat
  root_nid : Nat
  inos : Nat
  build_time : Nat
  build_time_nsec : Nat
  blocks : Nat
  meta_blkaddr : Nat
  xattr_blkaddr : Nat
  uuid : List Nat
  volume_name : List Nat
  feature_incompat : Nat
  compression : Nat
  extra_devices : Nat
  devt_slotoff : Nat
  dirblkbits : Nat
  xattr_prefix_count : Nat
  xattr_prefix_start : Nat
  packed_nid : Nat
  xattr_filter_reserved : Nat
  reserved : List Nat
  deriving DecidableEq, Repr

/-- Embedding of `superblock.rs` struct `Accessor`. -/
structure Accessor where
  base : Nat
  off : Nat
  len : Nat
  nr : Nat
  deriving DecidableEq, Repr

/-- Embedding of `Accessor::new(address, bits)`. -/
def Accessor.new (address bits : Nat) : Accessor :=
  let sz := 2 ^ bits
  { base := address / sz * sz
    off := address % sz
    len := sz - address % sz
    nr := address / sz }

/-- Embedding of `SuperBlock::blksz`. -/
def SuperBlock.blksz (sb : SuperBlock) : Nat := 2 ^ sb.blkszbits

/-- Embedding of `SuperBlock::blkpos` (`(blk as Off) << blkszbits`). -/
def SuperBlock.blkpos (sb : SuperBlock) (blk : Nat) : Nat := blk * 2 ^ sb.blkszbits

/-- Embedding of `SuperBlock::blknr`; the result is truncated to `Blk`
(`u32`) as by the Rust `as Blk` cast. -/
def SuperBlock.blknr (sb : SuperBlock) (pos : Nat) : Nat := pos / 2 ^ sb.blkszbits % U32

/-- Embedding of `SuperBlock::blk_round_up`, truncated to `u32` by the
`as Blk` cast. -/
def SuperBlock.blk_round_up (sb : SuperBlock) (addr : Nat) : Nat :=
  (addr + sb.blksz - 1) / sb.blksz % U32

/-- Embedding of `SuperBlock::iloc(nid)`. -/
def SuperBlock.iloc (sb : SuperBlock) (nid : Nat) : Nat :=
  sb.blkpos sb.meta_blkaddr + nid * 32

/-- Embedding of `SuperBlock::blk_access`. -/
def SuperBlock.blk_access (sb : SuperBlock) (address : Nat) : Accessor :=
  Accessor.new address sb.blkszbits

/-- Embedding of `inode.rs` enum `Layout`. -/
inductive Layout where
  | FlatPlain
  | CompressedFull
  | FlatInline
  | CompressedCompact
  | Chunk
  | Unknown
  deriving DecidableEq, Repr

/-- Embedding of `inode.rs` enum `Version`. -/
inductive Version where
  | Compat
  | Extended
  | Unknown
  deriving DecidableEq, Repr

/-- Embedding of `inode.rs` struct `Format`: the raw 16-bit inode format
word. -/
structure Format where
  word : Nat
  deriving DecidableEq, Repr

/-- Embedding of `Format::version()` (bit 0 of the format word). -/
def Format.version (f : Format) : Version :=
  match f.word >>> 0 &&& 0x1 with
  | 0 => Version.Compat
  | 1 => Version.Extended
  | _ => Version.Unknown

/-- Embedding of `Format::layout()` (bits 1..3 of the format word). -/
def Format.layout (f : Format) : Layout :=
  match f.word >>> 1 &&& 0x7 with
  | 0 => Layout.FlatPlain
  | 1 => Layout.CompressedFull
  | 2 => Layout.FlatInline
  | 3 => Layout.CompressedCompact
  | 4 => Layout.Chunk
  | _ => Layout.Unknown

/-- Embedding of `inode.rs` struct `ChunkFormat` (raw 16-bit word). -/
structure ChunkFormat where
  word : Nat
  deriving DecidableEq, Repr

/-- Embedding of `ChunkFormat::is_chunkindex()` (`word & 0x20 != 0`). -/
def ChunkFormat.is_chunkindex (c : ChunkFormat) : Bool := c.word &&& 0x20 ≠ 0

/-- Embedding of `ChunkFormat::chunkbits()` (`word & 0x1f`). -/
def ChunkFormat.chunkbits (c : ChunkFormat) : Nat := c.word &&& 0x1f

/-- Embedding of `inode.rs` struct `ChunkIndex`. -/
structure ChunkIndex where
  advise : Nat
  device_id : Nat
  blkaddr : Nat
  deriving DecidableEq, Repr

/-- Embedding of `ChunkIndex::from([u8; 8])`; missing bytes of a short
backend read keep the zero-initialised buffer value. -/
def ChunkIndex.ofBytes (u : List Nat) : ChunkIndex :=
  { advise := le16 (u.getD 0 0) (u.getD 1 0)
    device_id := le16 (u.getD 2 0) (u.getD 3 0)
    blkaddr := le32 (u.getD 4 0) (u.getD 5 0) (u.getD 6 0) (u.getD 7 0) }

/-- Embedding of `inode.rs` enum `Spec`. -/
inductive Spec where
  | Chunk (format : ChunkFormat)
  | RawBlk (blkaddr : Nat)
  | Device (device : Nat)
  | CompressedBlocks (blocks : Nat)
  | Unknown
  deriving DecidableEq, Repr

/-- Embedding of `Spec::from((&i_u, layout))`; `u` is the 4-byte `i_u`
field. -/
def Spec.ofLayout (u : List Nat) (l : Layout) : Spec :=
  match l with
  | Layout.FlatInline | Layout.FlatPlain =>
      Spec.RawBlk (le32 (u.getD 0 0) (u.getD 1 0) (u.getD 2 0) (u.getD 3 0))
  | Layout.CompressedFull | Layout.CompressedCompact =>
      Spec.CompressedBlocks (le32 (u.getD 0 0) (u.getD 1 0) (u.getD 2 0) (u.getD 3 0))
  | Layout.Chunk => Spec.Chunk ⟨le16 (u.getD 0 0) (u.getD 1 0)⟩
  | _ => Spec.Unknown

/-- Embedding of `inode.rs` struct `CompactInodeInfo` (fields used by the
claims). -/
structure CompactInodeInfo where
  i_format : Format
  i_xattr_icount : Nat
  i_mode : Nat
  i_nlink : Nat
  i_size : Nat
  i_u : List Nat
  i_ino : Nat
  i_uid : Nat
  i_gid : Nat
  deriving DecidableEq, Repr

/-- Embedding of `inode.rs` struct `ExtendedInodeInfo` (fields used by the
claims). -/
structure ExtendedInodeInfo where
  i_format : Format
  i_xattr_icount : Nat
  i_mode : Nat
  i_size : Nat
  i_u : List Nat
  i_ino : Nat
  i_uid : Nat
  i_gid : Nat
  i_mtime : Nat
  i_mtime_nsec : Nat
  i_nlink : Nat
  deriving DecidableEq, Repr

/-- Embedding of `inode.rs` enum `InodeInfo`. -/
inductive InodeInfo where
  | Extended (e : ExtendedInodeInfo)
  | Compact (c : CompactInodeInfo)
  deriving DecidableEq, Repr

/-- Embedding of `InodeInfo::file_size`. -/
def InodeInfo.file_size : InodeInfo → Nat
  | InodeInfo.Extended e => e.i_size
  | InodeInfo.Compact c => c.i_size

/-- Embedding of `InodeInfo::inode_size`. -/
def InodeInfo.inode_size : InodeInfo → Nat
  | InodeInfo.Extended _ => 64
  | InodeInfo.Compact _ => 32

/-- Embedding of `InodeInfo::format`. -/
def InodeInfo.format : InodeInfo → Format
  | InodeInfo.Extended e => e.i_format
  | InodeInfo.Compact c => c.i_format

/-- Embedding of `InodeInfo::xattr_size`: compact inodes yield 0; for
extended inodes the Rust expression `12 + 4 * (i_xattr_icount as Off - 1)`
is computed in wrapping 64-bit arithmetic. -/
def InodeInfo.xattr_size : InodeInfo → Nat
  | InodeInfo.Extended e => (12 + 4 * wsub64 e.i_xattr_icount 1) % U64
  | InodeInfo.Compact _ => 0

/-- Embedding of `InodeInfo::spec`: directories, regular files and
symlinks dispatch on the layout; every other mode yields `Unknown`. -/
def InodeInfo.spec (i : InodeInfo) : Spec :=
  let mode := match i with
    | InodeInfo.Extended e => e.i_mode
    | InodeInfo.Compact c => c.i_mode
  let u := match i with
    | InodeInfo.Extended e => e.i_u
    | InodeInfo.Compact c => c.i_u
  match mode &&& 0o170000 with
  | 0o40000 | 0o100000 | 0o120000 => Spec.ofLayout u i.format.layout
  | _ => Spec.Unknown

/-- An inode as the block-map code sees it: decoded info plus its nid
(trait `Inode` of inode.rs). -/
structure Inode where
  info : InodeInfo
  nid : Nat
  deriving DecidableEq, Repr

/-- Embedding of `map.rs` struct `Segment`. -/
structure Segment where
  start : Nat
  len : Nat
  deriving DecidableEq, Repr

/-- Embedding of `map.rs` enum `MapType`. -/
inductive MapType where
  | Meta
  | Normal
  deriving DecidableEq, Repr

/-- Embedding of `map.rs` struct `Map`. -/
structure Map where
  logical : Segment
  physical : Segment
  device_id : Nat
  algorithm_format : Nat
  map_type : MapType
  deriving DecidableEq, Repr

/-- Embedding of `devices.rs` struct `DeviceSpec`. -/
structure DeviceSpec where
  tags : List Nat
  blocks : Nat
  mapped_blocks : Nat
  deriving DecidableEq, Repr

/-- Embedding of `devices.rs` struct `DeviceInfo`. -/
structure DeviceInfo where
  mask : Nat
  specs : List DeviceSpec
  deriving DecidableEq, Repr

/-- The backend collaborator (trait `Backend` of data.rs): `fill` takes a
device id, a byte offset and the destination length and returns the bytes
read (possibly fewer on a short read) or an error. -/
structure Backend where
  fill : Nat → Nat → Nat → Except Errno (List Nat)

/-- A `fill` into a zero-initialised `n`-byte stack buffer: bytes past the
returned count keep their zero value. -/
def Backend.fillBuf (b : Backend) (dev off n : Nat) : Except Errno (List Nat) :=
  match b.fill dev off n with
  | Except.error e => Except.error e
  | Except.ok l => Except.ok (l.take n ++ List.replicate (n - (l.take n).length) 0)

/-- Embedding of `FileSystem::flatmap` (superblock.rs lines 183-223). -/
def flatmap (sb : SuperBlock) (inode : Inode) (offset : Nat) (inline : Bool) :
    Except Errno Map :=
  let nblocks := sb.blk_round_up inode.info.file_size
  match inode.info.spec with
  | Spec.RawBlk blkaddr =>
    let lastblk := if inline then wsub32 nblocks 1 else nblocks
    if offset < sb.blkpos lastblk then
      let len := wsub64 (min inode.info.file_size (sb.blkpos lastblk)) offset
      Except.ok
        { logical := { start := offset, len := len }
          physical := { start := sb.blkpos blkaddr + offset, len := len }
          algorithm_format := 0
          device_id := 0
          map_type := MapType.Normal }
    else if inline then
      let len := wsub64 inode.info.file_size offset
      let accessor := sb.blk_access offset
      Except.ok
        { logical := { start := offset, len := len }
          physical :=
            { start := sb.iloc inode.nid + inode.info.inode_size +
                inode.info.xattr_size + accessor.off
              len := len }
          algorithm_format := 0
          device_id := 0
          map_type := MapType.Meta }
    else
      Except.error Errno.EUCLEAN
  | _ => Except.error Errno.EUCLEAN

/-- Embedding of `SuperBlock::chunk_access`. -/
def SuperBlock.chunk_access (sb : SuperBlock) (format : ChunkFormat) (address : Nat) :
    Accessor :=
  Accessor.new address (format.chunkbits + sb.blkszbits)

/-- Embedding of `FileSystem::chunk_map` (superblock.rs lines 225-295). -/
def chunk_map (sb : SuperBlock) (di : DeviceInfo) (b : Backend) (inode : Inode)
    (offset : Nat) : Except Errno Map :=
  match inode.info.spec with
  | Spec.Chunk chunkformat =>
    let accessor := sb.chunk_access chunkformat offset
    if chunkformat.is_chunkindex then
      let unit := 8
      let pos := roundUp
        (sb.iloc inode.nid + inode.info.inode_size + inode.info.xattr_size +
          unit * accessor.nr) unit
      match b.fillBuf 0 pos 8 with
      | Except.error e => Except.error e
      | Except.ok buf =>
        let chunk_index := ChunkIndex.ofBytes buf
        if chunk_index.blkaddr = U32 - 1 then
          Except.error Errno.EUCLEAN
        else
          Except.ok
            { logical := { start := accessor.base + accessor.off, len := accessor.len }
              physical :=
                { start := sb.blkpos chunk_index.blkaddr + accessor.off
                  len := accessor.len }
              algorithm_format := 0
              device_id := chunk_index.device_id &&& di.mask
              map_type := MapType.Normal }
    else
      let unit := 4
      let pos := roundUp
        (sb.iloc inode.nid + inode.info.inode_size + inode.info.xattr_size +
          unit * accessor.nr) unit
      match b.fillBuf 0 pos 4 with
      | Except.error e => Except.error e
      | Except.ok buf =>
        let blkaddr := le32 (buf.getD 0 0) (buf.getD 1 0) (buf.getD 2 0) (buf.getD 3 0)
        let len := min accessor.len (wsub64 inode.info.file_size offset)
        if blkaddr = U32 - 1 then
          Except.error Errno.EUCLEAN
        else
          Except.ok
            { logical := { start := accessor.base + accessor.off, len := len }
              physical := { start := sb.blkpos blkaddr + accessor.off, len := len }
              algorithm_format := 0
              device_id := 0
              map_type := MapType.Normal }
  | _ => Except.error Errno.EUCLEAN

/-- Embedding of `FileSystem::map` (superblock.rs lines 297-305).  The
`todo!()` arm for compressed and unknown layouts is a Rust panic and is
modelled as `none`. -/
def fsMap (sb : SuperBlock) (di : DeviceInfo) (b : Backend) (inode : Inode)
    (offset : Nat) : Option (Except Errno Map) :=
  match inode.info.format.layout with
  | Layout.FlatInline => some (flatmap sb inode offset true)
  | Layout.FlatPlain => some (flatmap sb inode offset false)
  | Layout.Chunk => some (chunk_map sb di b inode offset)
  | _ => none

/-- Modelled from the spec: `DiskBlockAccessor` is referenced by
`MapIter::next` (map.rs line 90) but its definition is not among the
sources under src/.  Per the spec (§4.2, MapIter clamp) it caps each
yield at `blksz - (physical_start mod blksz)`, i.e. it is the block-size
`Accessor` of the superblock at the given address. -/
def DiskBlockAccessor.new (sb : SuperBlock) (address : Nat) : Accessor :=
  Accessor.new address sb.blkszbits

/-- Embedding of `MapIter::next` (map.rs lines 83-100) as one step of the
iterator: `offset` is the cursor, `len` the captured file size.  Result
`none` is a panic inside `map` (the `todo!()` arm); `some none` is
end-of-iteration, which the code also produces for an `Err` from `map`
(line 97); `some (some (m, offset'))` yields the clamped map and the
advanced cursor. -/
def mapIterStep (sb : SuperBlock) (di : DeviceInfo) (b : Backend) (inode : Inode)
    (offset len : Nat) : Option (Option (Map × Nat)) :=
  if offset ≥ len then
    some none
  else
    match fsMap sb di b inode offset with
    | none => none
    | some (Except.error _) => some none
    | some (Except.ok m) =>
      let ba := DiskBlockAccessor.new sb m.physical.start
      let l := min m.physical.len ba.len
      some (some
        ({ m with
            physical := { m.physical with len := l }
            logical := { m.logical with len := l } },
          offset + l))

/-! Helper lemmas about the block map. -/

theorem Accessor.base_add_off (address bits : Nat) :
    (Accessor.new address bits).base + (Accessor.new address bits).off = address := by
  simp only [Accessor.new]
  exact Nat.div_add_mod' address (2 ^ bits)

theorem flatmap_ok_logical_start (sb : SuperBlock) (inode : Inode) (offset : Nat)
    (inline : Bool) (m : Map) (h : flatmap sb inode offset inline = Except.ok m) :
    m.logical.start = offset ∧ m.physical.len = m.logical.len := by
  unfold flatmap at h
  rcases hspec : inode.info.spec with cf | blkaddr | dv | nb | u
  · simp only [hspec] at h; cases h
  · simp only [hspec] at h
    by_cases hlt : offset < sb.blkpos
        (if inline = true then wsub32 (sb.blk_round_up inode.info.file_size) 1
          else sb.blk_round_up inode.info.file_size)
    · rw [if_pos hlt] at h
      injection h with h
      subst h
      exact ⟨rfl, rfl⟩
    · rw [if_neg hlt] at h
      by_cases hinl : inline = true
      · rw [if_pos hinl] at h
        injection h with h
        subst h
        exact ⟨rfl, rfl⟩
      · rw [if_neg hinl] at h; cases h
  · simp only [hspec] at h; cases h
  · simp only [hspec] at h; cases h
  · simp only [hspec] at h; cases h

theorem chunk_map_ok_logical_start (sb : SuperBlock) (di : DeviceInfo) (b : Backend)
    (inode : Inode) (offset : Nat) (m : Map)
    (h : chunk_map sb di b inode offset = Except.ok m) :
    m.logical.start = offset ∧ m.physical.len = m.logical.len := by
  unfold chunk_map at h
  rcases hspec : inode.info.spec with cf | blkaddr | dv | nb | u
  case Chunk =>
    simp only [hspec] at h
    by_cases hidx : cf.is_chunkindex = true
    · rw [if_pos hidx] at h
      rcases hf : b.fillBuf 0 (roundUp
          (sb.iloc inode.nid + inode.info.inode_size + inode.info.xattr_size +
            8 * (sb.chunk_access cf offset).nr) 8) 8 with e | buf
      · simp only [hf] at h; cases h
      · simp only [hf] at h
        by_cases hmax : (ChunkIndex.ofBytes buf).blkaddr = U32 - 1
        · rw [if_pos hmax] at h; cases h
        · rw [if_neg hmax] at h
          injection h with h
          subst h
          exact ⟨Accessor.base_add_off offset (cf.chunkbits + sb.blkszbits), rfl⟩
    · rw [if_neg hidx] at h
      rcases hf : b.fillBuf 0 (roundUp
          (sb.iloc inode.nid + inode.info.inode_size + inode.info.xattr_size +
            4 * (sb.chunk_access cf offset).nr) 4) 4 with e | buf
      · simp only [hf] at h; cases h
      · simp only [hf] at h
        by_cases hmax : le32 (buf.getD 0 0) (buf.getD 1 0) (buf.getD 2 0) (buf.getD 3 0) =
            U32 - 1
        · rw [if_pos hmax] at h; cases h
        · rw [if_neg hmax] at h
          injection h with h
          subst h
          exact ⟨Accessor.base_add_off offset (cf.chunkbits + sb.blkszbits), rfl⟩
  all_goals (simp only [hspec] at h; cases h)

theorem fsMap_ok_logical_start (sb : SuperBlock) (di : DeviceInfo) (b : Backend)
    (inode : Inode) (offset : Nat) (m : Map)
    (h : fsMap sb di b inode offset = some (Except.ok m)) :
    m.logical.start = offset ∧ m.physical.len = m.logical.len := by
  unfold fsMap at h
  rcases hl : inode.info.format.layout with _ | _ | _ | _ | _ | _
  · simp only [hl] at h
    exact flatmap_ok_logical_start sb inode offset false m (Option.some.inj h)
  · simp only [hl] at h; cases h
  · simp only [hl] at h
    exact flatmap_ok_logical_start sb inode offset true m (Option.some.inj h)
  · simp only [hl] at h; cases h
  · simp only [hl] at h
    exact chunk_map_ok_logical_start sb di b inode offset m (Option.some.inj h)
  · simp only [hl] at h; cases h

/-- C1: for every inode and logical offset below the file size, the map
the caller observes (the value `map` produced, after the block-boundary
clamp that `MapIter::next` applies) has `physical.len = logical.len`,
`logical.start = offset`, and `physical.len ≤ blksz - physical.start mod
blksz`. -/
theorem map_clamped_segment_wellformed (sb : SuperBlock) (di : DeviceInfo) (b : Backend)
    (inode : Inode) (offset len : Nat) (m : Map) (offset' : Nat)
    (h : mapIterStep sb di b inode offset len = some (some (m, offset'))) :
    m.physical.len = m.logical.len ∧ m.logical.start = offset ∧
    m.physical.len ≤ sb.blksz - m.physical.start % sb.blksz := by
  unfold mapIterStep at h
  split at h
  · cases h
  · cases hm : fsMap sb di b inode offset with
    | none => rw [hm] at h; cases h
    | some r =>
      cases r with
      | error e => rw [hm] at h; cases h
      | ok m0 =>
        rw [hm] at h
        simp only [] at h
        obtain ⟨hstart, _⟩ := fsMap_ok_logical_start sb di b inode offset m0 hm
        cases h
        refine ⟨rfl, hstart, ?_⟩
        show min m0.physical.len (DiskBlockAccessor.new sb m0.physical.start).len ≤ _
    -- the clamp length is bounded by the accessor length, which is
    -- exactly blksz - start mod blksz
        have : (DiskBlockAccessor.new sb m0.physical.start).len =
            sb.blksz - m0.physical.start % sb.blksz := rfl
        rw [this]
        exact Nat.min_le_right _ _

/-- Concrete fixture: a 512-byte-block superblock. -/
def sbFix : SuperBlock :=
  { magic := 0xE0F5E1E2, checksum := 0, feature_compat := 0, blkszbits := 9
    sb_extslots := 0, root_nid := 1, inos := 0, build_time := 0, build_time_nsec := 0
    blocks := 0, meta_blkaddr := 1, xattr_blkaddr := 2, uuid := [], volume_name := []
    feature_incompat := 0, compression := 0, extra_devices := 0, devt_slotoff := 0
    dirblkbits := 9, xattr_prefix_count := 0, xattr_prefix_start := 0, packed_nid := 0
    xattr_filter_reserved := 0, reserved := [] }

/-- Concrete fixture: a compact regular-file inode with flat-inline
layout, size 600, raw block address 3. -/
def inodeFlat : Inode :=
  { info := InodeInfo.Compact
      { i_format := ⟨4⟩, i_xattr_icount := 0, i_mode := 0o100000, i_nlink := 1
        i_size := 600, i_u := [3, 0, 0, 0], i_ino := 1, i_uid := 0, i_gid := 0 }
    nid := 7 }

/-- Concrete fixture: a backend that always reads zeros. -/
def backendZero : Backend := ⟨fun _ _ n => Except.ok (List.replicate n 0)⟩

/-- Concrete fixture: an empty device table. -/
def diEmpty : DeviceInfo := ⟨0, []⟩

theorem map_clamped_segment_wellformed_witness :
    ∃ m : Map, m.physical.len = m.logical.len ∧ m.logical.start = 0 ∧
      m.physical.len ≤ sbFix.blksz - m.physical.start % sbFix.blksz :=
  ⟨{ logical := ⟨0, 512⟩, physical := ⟨1536, 512⟩, device_id := 0
     algorithm_format := 0, map_type := MapType.Normal },
    map_clamped_segment_wellformed sbFix diEmpty backendZero inodeFlat 0 600 _ 512
      (by decide)⟩

/-- C10: `xattr_size` returns 0 for every compact inode regardless of
`i_xattr_icount`; for extended inodes it computes
`12 + 4 * (i_xattr_icount - 1)` in wrapping 64-bit arithmetic, so an
extended inode with `i_xattr_icount = 0` yields 8. -/
theorem xattr_size_wrapping :
    (∀ c : CompactInodeInfo, (InodeInfo.Compact c).xattr_size = 0) ∧
    (∀ e : ExtendedInodeInfo, e.i_xattr_icount < U64 →
      (InodeInfo.Extended e).xattr_size =
        (12 + 4 * ((e.i_xattr_icount + (U64 - 1)) % U64)) % U64) ∧
    (∀ e : ExtendedInodeInfo, e.i_xattr_icount = 0 →
      (InodeInfo.Extended e).xattr_size = 8) := by
  refine ⟨fun _ => rfl, fun e h => ?_, fun e h => ?_⟩
  · show (12 + 4 * wsub64 e.i_xattr_icount 1) % U64 = _
    unfold wsub64
    rcases Nat.eq_zero_or_pos e.i_xattr_icount with h0 | h0
    · rw [h0]; norm_num [U64]
    · have h0' : 1 ≤ e.i_xattr_icount := h0
      rw [if_pos h0']
      have hU : 1 ≤ U64 := by norm_num [U64]
      have h2 : e.i_xattr_icount - 1 < U64 := by omega
      have h1 : e.i_xattr_icount + (U64 - 1) = e.i_xattr_icount - 1 + U64 := by omega
      rw [h1, Nat.add_mod_right, Nat.mod_eq_of_lt h2]
  · show (12 + 4 * wsub64 e.i_xattr_icount 1) % U64 = 8
    rw [h]
    show (12 + 4 * wsub64 0 1) % U64 = 8
    unfold wsub64 U64
    norm_num

/-- C3: for a flat-layout inode with a `RawBlk` data spec and a valid
offset, `flatmap` returns the Normal map with physical start
`blkpos(blkaddr) + offset` and length `min(file_size, blkpos(lastblk)) -
offset` when `offset < blkpos(lastblk)`; otherwise, when inline, the Meta
map at `iloc(nid) + inode_size + xattr_size + blkoff(offset)` with length
`file_size - offset`; otherwise it fails with `EUCLEAN`.  Here
`nblocks = ceil(file_size / blksz)` and `lastblk = nblocks - 1` when
inline, else `nblocks`. -/
theorem flatmap_flat_raw_spec (sb : SuperBlock) (inode : Inode) (offset : Nat)
    (inline : Bool) (blkaddr : Nat)
    (hspec : inode.info.spec = Spec.RawBlk blkaddr)
    (hoff : offset < inode.info.file_size)
    (htrunc : (inode.info.file_size + sb.blksz - 1) / sb.blksz < U32) :
    (offset < sb.blkpos (if inline then
        (inode.info.file_size + sb.blksz - 1) / sb.blksz - 1
      else (inode.info.file_size + sb.blksz - 1) / sb.blksz) →
      flatmap sb inode offset inline = Except.ok
        { logical := (⟨offset,
            min inode.info.file_size (sb.blkpos (if inline then
                (inode.info.file_size + sb.blksz - 1) / sb.blksz - 1
              else (inode.info.file_size + sb.blksz - 1) / sb.blksz)) - offset⟩ : Segment)
          physical := (⟨sb.blkpos blkaddr + offset,
            min inode.info.file_size (sb.blkpos (if inline then
                (inode.info.file_size + sb.blksz - 1) / sb.blksz - 1
              else (inode.info.file_size + sb.blksz - 1) / sb.blksz)) - offset⟩ : Segment)
          device_id := 0, algorithm_format := 0, map_type := MapType.Normal }) ∧
    (¬ offset < sb.blkpos (if inline then
        (inode.info.file_size + sb.blksz - 1) / sb.blksz - 1
      else (inode.info.file_size + sb.blksz - 1) / sb.blksz) → inline = true →
      flatmap sb inode offset inline = Except.ok
        { logical := { start := offset, len := inode.info.file_size - offset }
          physical := (⟨sb.iloc inode.nid + inode.info.inode_size +
              inode.info.xattr_size + offset % sb.blksz,
            inode.info.file_size - offset⟩ : Segment)
          device_id := 0, algorithm_format := 0, map_type := MapType.Meta }) ∧
    (¬ offset < sb.blkpos (if inline then
        (inode.info.file_size + sb.blksz - 1) / sb.blksz - 1
      else (inode.info.file_size + sb.blksz - 1) / sb.blksz) → inline = false →
      flatmap sb inode offset inline = Except.error Errno.EUCLEAN) := by
  have hb : 0 < sb.blksz := Nat.pow_pos (by norm_num)
  have hnb1 : 1 ≤ (inode.info.file_size + sb.blksz - 1) / sb.blksz := by
    rw [Nat.one_le_div_iff hb]; omega
  have hru : sb.blk_round_up inode.info.file_size =
      (inode.info.file_size + sb.blksz - 1) / sb.blksz := by
    unfold SuperBlock.blk_round_up
    exact Nat.mod_eq_of_lt htrunc
  have hlb : (if inline = true then wsub32 (sb.blk_round_up inode.info.file_size) 1
      else sb.blk_round_up inode.info.file_size) =
      (if inline = true then (inode.info.file_size + sb.blksz - 1) / sb.blksz - 1
        else (inode.info.file_size + sb.blksz - 1) / sb.blksz) := by
    rw [hru]
    cases inline
    · rfl
    · simp only [if_pos rfl]
      unfold wsub32
      rw [if_pos hnb1]
  refine ⟨fun hlt => ?_, fun hge hinl => ?_, fun hge hinl => ?_⟩
  · unfold flatmap
    simp only [hspec]
    rw [hlb, if_pos hlt]
    have hle : offset ≤ min inode.info.file_size (sb.blkpos (if inline = true then
        (inode.info.file_size + sb.blksz - 1) / sb.blksz - 1
      else (inode.info.file_size + sb.blksz - 1) / sb.blksz)) :=
      le_min (le_of_lt hoff) (le_of_lt hlt)
    unfold wsub64
    rw [if_pos hle]
  · unfold flatmap
    simp only [hspec]
    rw [hlb, if_neg hge, if_pos hinl]
    unfold wsub64
    rw [if_pos (le_of_lt hoff)]
    rfl
  · unfold flatmap
    simp only [hspec]
    rw [hlb, if_neg hge, if_neg (by simp [hinl])]

theorem flatmap_flat_raw_spec_witness :
    flatmap sbFix inodeFlat 0 true = Except.ok
      { logical := { start := 0, len := min (600 : Nat) (sbFix.blkpos 1) - 0 }
        physical := { start := sbFix.blkpos 3 + 0, len := min (600 : Nat) (sbFix.blkpos 1) - 0 }
        device_id := 0, algorithm_format := 0, map_type := MapType.Normal } :=
  (flatmap_flat_raw_spec sbFix inodeFlat 0 true 3 (by decide) (by decide)
    (by decide)).1 (by decide)

/-- The 128-byte device slots contained in one buffer: the loop of
`get_device_infos` consumes slots while `cur + 128 <= len`. -/
def slotsOf (content : List Nat) : List (List Nat) :=
  if _h : 128 ≤ content.length then
    content.take 128 :: slotsOf (content.drop 128)
  else []
termination_by content.length
decreasing_by simp only [List.length_drop]; omega

/-- Embedding of the `DeviceSpec` built from one on-disk `DeviceSlot`. -/
def DeviceSpec.ofSlot (l : List Nat) : DeviceSpec :=
  { tags := l.take 64
    blocks := le32 (l.getD 64 0) (l.getD 65 0) (l.getD 66 0) (l.getD 67 0)
    mapped_blocks := le32 (l.getD 68 0) (l.getD 69 0) (l.getD 70 0) (l.getD 71 0) }

/-- Embedding of `get_device_infos` (devices.rs lines 44-74) over the
buffer contents yielded by the continuous iterator. -/
def getDeviceInfos (bufs : List (List Nat)) : DeviceInfo :=
  let specs := ((bufs.map slotsOf).flatten).map DeviceSpec.ofSlot
  { mask := if specs.isEmpty then 0 else 2 ^ (Nat.log2 specs.length + 1) - 1
    specs := specs }

/-- The mask formula of `get_device_infos` as a function of the device
count (`ilog2` of Rust is `Nat.log2`). -/
def deviceMask (n : Nat) : Nat := if n = 0 then 0 else 2 ^ (Nat.log2 n + 1) - 1

/-- C4: for a chunk-layout inode whose `ChunkFormat` has the chunk-index
flag, `chunk_map` reads an 8-byte `ChunkIndex` at
`round_up(iloc(nid) + inode_size + xattr_size + 8 * chunknr, 8)` where
`chunknr = offset >> (chunkbits + blkszbits)`; the hole sentinel
`blkaddr = 0xFFFFFFFF` fails with `EUCLEAN`, and otherwise the map has
`physical.start = blkpos(blkaddr) + chunkoff` and
`device_id = chunk_index.device_id & DeviceInfo.mask`, the mask being the
function of the device count that `get_device_infos` computes at open. -/
theorem chunk_map_chunkindex_spec (sb : SuperBlock) (di : DeviceInfo) (b : Backend)
    (inode : Inode) (offset : Nat) (cf : ChunkFormat) (bytes : List Nat)
    (hspec : inode.info.spec = Spec.Chunk cf)
    (hidx : cf.is_chunkindex = true)
    (hfill : b.fillBuf 0 (roundUp (sb.iloc inode.nid + inode.info.inode_size +
        inode.info.xattr_size + 8 * (sb.chunk_access cf offset).nr) 8) 8 =
      Except.ok bytes) :
    ((sb.chunk_access cf offset).nr = offset / 2 ^ (cf.chunkbits + sb.blkszbits) ∧
      (sb.chunk_access cf offset).off = offset % 2 ^ (cf.chunkbits + sb.blkszbits)) ∧
    ((ChunkIndex.ofBytes bytes).blkaddr = 0xFFFFFFFF →
      chunk_map sb di b inode offset = Except.error Errno.EUCLEAN) ∧
    ((ChunkIndex.ofBytes bytes).blkaddr ≠ 0xFFFFFFFF →
      chunk_map sb di b inode offset = Except.ok
        { logical := (⟨offset / 2 ^ (cf.chunkbits + sb.blkszbits) *
              2 ^ (cf.chunkbits + sb.blkszbits) + offset % 2 ^ (cf.chunkbits + sb.blkszbits),
            2 ^ (cf.chunkbits + sb.blkszbits) -
              offset % 2 ^ (cf.chunkbits + sb.blkszbits)⟩ : Segment)
          physical := (⟨sb.blkpos (ChunkIndex.ofBytes bytes).blkaddr +
              offset % 2 ^ (cf.chunkbits + sb.blkszbits),
            2 ^ (cf.chunkbits + sb.blkszbits) -
              offset % 2 ^ (cf.chunkbits + sb.blkszbits)⟩ : Segment)
          device_id := (ChunkIndex.ofBytes bytes).device_id &&& di.mask
          algorithm_format := 0, map_type := MapType.Normal }) ∧
    (∀ bufs : List (List Nat),
      (getDeviceInfos bufs).mask = deviceMask (getDeviceInfos bufs).specs.length) := by
  have hmaxlit : U32 - 1 = 0xFFFFFFFF := by norm_num [U32]
  refine ⟨⟨rfl, rfl⟩, fun hhole => ?_, fun hnothole => ?_, fun bufs => ?_⟩
  · unfold chunk_map
    simp only [hspec]
    rw [if_pos hidx]
    simp only [hfill]
    rw [if_pos (by rw [hmaxlit]; exact hhole)]
  · unfold chunk_map
    simp only [hspec]
    rw [if_pos hidx]
    simp only [hfill]
    rw [if_neg (by rw [hmaxlit]; exact hnothole)]
    rfl
  · unfold getDeviceInfos deviceMask
    simp only []
    by_cases hz : (((bufs.map slotsOf).flatten).map DeviceSpec.ofSlot).isEmpty
    · rw [if_pos hz, if_pos]
      rw [List.isEmpty_iff_length_eq_zero] at hz
      exact hz
    · rw [if_neg hz, if_neg]
      rw [List.isEmpty_iff_length_eq_zero] at hz
      exact hz

/-- Concrete fixture: a compact regular-file inode with chunk layout and
the chunk-index flag (chunkbits 5). -/
def inodeChunk : Inode :=
  { info := InodeInfo.Compact
      { i_format := ⟨8⟩, i_xattr_icount := 0, i_mode := 0o100000, i_nlink := 1
        i_size := 4096, i_u := [0x25, 0, 0, 0], i_ino := 2, i_uid := 0, i_gid := 0 }
    nid := 9 }

/-- Concrete fixture: a backend whose reads yield one chunk index with
device id 2 and block address 7. -/
def backendCI : Backend := ⟨fun _ _ _ => Except.ok [0, 0, 2, 0, 7, 0, 0, 0]⟩

theorem chunk_map_chunkindex_spec_witness :
    chunk_map sbFix diEmpty backendCI inodeChunk 0 = Except.ok
      { logical := (⟨0 / 2 ^ (14 : Nat) * 2 ^ (14 : Nat) + 0 % 2 ^ (14 : Nat),
          2 ^ (14 : Nat) - 0 % 2 ^ (14 : Nat)⟩ : Segment)
        physical := (⟨sbFix.blkpos 7 + 0 % 2 ^ (14 : Nat),
          2 ^ (14 : Nat) - 0 % 2 ^ (14 : Nat)⟩ : Segment)
        device_id := 2 &&& diEmpty.mask
        algorithm_format := 0, map_type := MapType.Normal } :=
  (chunk_map_chunkindex_spec sbFix diEmpty backendCI inodeChunk 0 ⟨37⟩
    [0, 0, 2, 0, 7, 0, 0, 0] (by decide) (by decide) rfl).2.2.1 (by decide)

theorem xattr_size_wrapping_witness :
    (InodeInfo.Extended
      { i_format := ⟨1⟩, i_xattr_icount := 0, i_mode := 0, i_size := 0, i_u := []
        i_ino := 0, i_uid := 0, i_gid := 0, i_mtime := 0, i_mtime_nsec := 0
        i_nlink := 0 }).xattr_size = 8 :=
  xattr_size_wrapping.2.2 _ rfl

/-! Directory decoding (dir.rs). -/

/-- Embedding of `dir.rs` struct `DirentDesc`. -/
structure DirentDesc where
  nid : Nat
  nameoff : Nat
  file_type : Nat
  reserved : Nat
  deriving DecidableEq, Repr

/-- Embedding of one directory entry (`dir.rs` struct `Dirent`). -/
structure Dirent where
  desc : DirentDesc
  name : List Nat
  deriving DecidableEq, Repr

/-- The packed 12-byte descriptor at index `i` of a directory buffer.
`DirCollection` fabricates the descriptor slice with `from_raw_parts`
without a bounds check; a read past the buffer is undefined behaviour in
Rust and is modelled here as reading zeros. -/
def descAt (data : List Nat) (i : Nat) : DirentDesc :=
  { nid := le64 (data.getD (12 * i) 0) (data.getD (12 * i + 1) 0)
      (data.getD (12 * i + 2) 0) (data.getD (12 * i + 3) 0)
      (data.getD (12 * i + 4) 0) (data.getD (12 * i + 5) 0)
      (data.getD (12 * i + 6) 0) (data.getD (12 * i + 7) 0)
    nameoff := le16 (data.getD (12 * i + 8) 0) (data.getD (12 * i + 9) 0)
    file_type := data.getD (12 * i + 10) 0
    reserved := data.getD (12 * i + 11) 0 }

/-- Embedding of the record count of `DirCollection::new`:
`first_record.nameoff / 12`. -/
def dirTotal (data : List Nat) : Nat := (descAt data 0).nameoff / 12

/-- Embedding of `DirCollection::dirent` for an index below the record
count.  The name slices use Rust's checked slice indexing, so an
out-of-range `nameoff` (an on-disk value) panics; the panic is modelled
as `none`.  The `u16` subtraction `next.nameoff - desc.nameoff` wraps in
release builds; the wrapped length then fails the slice bounds check. -/
def direntAt (data : List Nat) (i : Nat) : Option Dirent :=
  let desc := descAt data i
  if i = dirTotal data - 1 then
    if desc.nameoff ≤ data.length then
      some { desc := desc, name := data.drop desc.nameoff }
    else none
  else
    let next := descAt data (i + 1)
    let len := wsub16 next.nameoff desc.nameoff
    if desc.nameoff + len ≤ data.length then
      some { desc := desc, name := (data.drop desc.nameoff).take len }
    else none

/-- The scan of one directory buffer's entries as performed by the
`DirCollection` iterator inside `find_nid`: entries are visited in order
and the first name match wins.  The loop is encoded with a fuel argument
equal to the number of records still to visit (`dirTotal data - i`), so
fuel 0 is exactly the iterator's `index >= total` stop.  Outer `none` is
a panic while decoding an entry; `some none` means the buffer was
scanned without a match. -/
def findInBlockGo (data name : List Nat) : Nat → Nat → Option (Option Nat)
  | _, 0 => some none
  | i, fuel + 1 =>
    match direntAt data i with
    | none => none
    | some d =>
      if d.name = name then some (some d.desc.nid)
      else findInBlockGo data name (i + 1) fuel

def findInBlock (data name : List Nat) : Option (Option Nat) :=
  findInBlockGo data name 0 (dirTotal data)

/-- Embedding of `FileSystem::find_nid` (superblock.rs lines 331-341)
over the directory buffers yielded by `mapped_iter`: scan each buffer's
directory collection in order and return the nid of the first entry
whose name equals `name`. -/
def findNid (blocks : List (List Nat)) (name : List Nat) : Option (Option Nat) :=
  match blocks with
  | [] => some none
  | data :: rest =>
    match findInBlock data name with
    | none => none
    | some (some n) => some (some n)
    | some none => findNid rest name

theorem findInBlockGo_some_aux (data name : List Nat) :
    ∀ fuel i n, findInBlockGo data name i fuel = some (some n) →
      ∃ j, i ≤ j ∧ j < i + fuel ∧ ∃ d,
        direntAt data j = some d ∧ d.name = name ∧ d.desc.nid = n := by
  intro fuel
  induction fuel with
  | zero =>
    intro i n h
    simp [findInBlockGo] at h
  | succ fuel ih =>
    intro i n h
    unfold findInBlockGo at h
    cases hd : direntAt data i with
    | none => rw [hd] at h; cases h
    | some d =>
      simp only [hd] at h
      by_cases hn : d.name = name
      · rw [if_pos hn] at h
        injection h with h
        injection h with h
        exact ⟨i, le_refl i, by omega, d, hd, hn, h⟩
      · rw [if_neg hn] at h
        obtain ⟨j, hij, hj, rest⟩ := ih (i + 1) n h
        exact ⟨j, by omega, by omega, rest⟩

theorem findInBlockGo_none_aux (data name : List Nat) :
    ∀ fuel i, findInBlockGo data name i fuel = some none →
      ∀ j, i ≤ j → j < i + fuel → ∀ d, direntAt data j = some d →
        d.name ≠ name := by
  intro fuel
  induction fuel with
  | zero =>
    intro i h j hij hj d hd
    omega
  | succ fuel ih =>
    intro i h j hij hj d hd
    unfold findInBlockGo at h
    cases hdi : direntAt data i with
    | none => rw [hdi] at h; cases h
    | some di =>
      simp only [hdi] at h
      by_cases hn : di.name = name
      · rw [if_pos hn] at h; simp at h
      · rw [if_neg hn] at h
        rcases Nat.eq_or_lt_of_le hij with heq | hlt
        · subst heq
          rw [hdi] at hd
          injection hd with hd
          subst hd
          exact hn
        · exact ih (i + 1) h j (by omega) (by omega) d hd

theorem findNid_some (blocks : List (List Nat)) (name : List Nat) (n : Nat)
    (h : findNid blocks name = some (some n)) :
    ∃ data ∈ blocks, ∃ i, i < dirTotal data ∧ ∃ d,
      direntAt data i = some d ∧ d.name = name ∧ d.desc.nid = n := by
  induction blocks with
  | nil => simp [findNid] at h
  | cons data rest ih =>
    unfold findNid at h
    cases hb : findInBlock data name with
    | none => rw [hb] at h; cases h
    | some r =>
      cases r with
      | some m =>
        rw [hb] at h
        injection h with h
        injection h with h
        subst h
        obtain ⟨j, _, hj, d, hd, hn, hnid⟩ :=
          findInBlockGo_some_aux data name (dirTotal data) 0 m hb
        exact ⟨data, List.mem_cons_self data rest, j, by omega, d, hd, hn, hnid⟩
      | none =>
        rw [hb] at h
        obtain ⟨data', hmem, rest'⟩ := ih h
        exact ⟨data', List.mem_cons_of_mem data hmem, rest'⟩

theorem findNid_none (blocks : List (List Nat)) (name : List Nat)
    (h : findNid blocks name = some none) :
    ∀ data ∈ blocks, ∀ i, i < dirTotal data → ∀ d, direntAt data i = some d →
      d.name ≠ name := by
  induction blocks with
  | nil => intro data hmem; simp at hmem
  | cons data rest ih =>
    unfold findNid at h
    cases hb : findInBlock data name with
    | none => rw [hb] at h; cases h
    | some r =>
      cases r with
      | some m => rw [hb] at h; simp at h
      | none =>
        rw [hb] at h
        intro data' hmem i hi d hd
        rcases List.mem_cons.mp hmem with heq | hmem'
        · subst heq
          exact findInBlockGo_none_aux data' name (dirTotal data') 0 hb i
            (by omega) (by omega) d hd
        · exact ih h data' hmem' i hi d hd

/-- C7: in a run of `find_nid` that completes without a panic, the result
is `Some n` if and only if some directory entry among the parent's
directory buffers (decoded with record count `first_record.nameoff / 12`,
record `i`'s name spanning `nameoff i` to `nameoff (i+1)`, and the last
name extending to the buffer end) has name bytes equal to `name`; in that
case `n` is such an entry's nid. -/
theorem find_nid_iff (blocks : List (List Nat)) (name : List Nat) (r : Option Nat)
    (h : findNid blocks name = some r) :
    ((∃ n, r = some n) ↔ ∃ data ∈ blocks, ∃ i, i < dirTotal data ∧ ∃ d,
        direntAt data i = some d ∧ d.name = name) ∧
    (∀ n, r = some n → ∃ data ∈ blocks, ∃ i, i < dirTotal data ∧ ∃ d,
        direntAt data i = some d ∧ d.name = name ∧ d.desc.nid = n) := by
  constructor
  · constructor
    · rintro ⟨n, rfl⟩
      obtain ⟨data, hmem, i, hi, d, hd, hn, _⟩ := findNid_some blocks name n h
      exact ⟨data, hmem, i, hi, d, hd, hn⟩
    · rintro ⟨data, hmem, i, hi, d, hd, hn⟩
      cases r with
      | some n => exact ⟨n, rfl⟩
      | none => exact absurd hn (findNid_none blocks name h data hmem i hi d hd)
  · rintro n rfl
    exact findNid_some blocks name n h

/-- Concrete fixture: a directory buffer with one entry, nid 5, named
"ab". -/
def dirGood : List Nat := [5, 0, 0, 0, 0, 0, 0, 0, 12, 0, 2, 0, 97, 98]

theorem find_nid_iff_witness :
    (∃ n : Nat, (some 5 : Option Nat) = some n) ↔
      ∃ data ∈ [dirGood], ∃ i, i < dirTotal data ∧ ∃ d,
        direntAt data i = some d ∧ d.name = [97, 98] :=
  (find_nid_iff [dirGood] [97, 98] (some 5) (by decide)).1

/-- C9: the claim asserts the unchecked slice indexing of
`DirCollection::dirent` is unreachable for all inputs.  This directory
buffer (12 bytes, `first_record.nameoff = 20`) has record count 1, so the
iterator reaches `dirent(0)`, whose name slice `data[20..]` is out of
bounds: the Rust code panics, modelled as `none`. -/
theorem dirent_nameoff_out_of_bounds_panics :
    dirTotal [0, 0, 0, 0, 0, 0, 0, 0, 20, 0, 0, 0] = 1 ∧
    direntAt [0, 0, 0, 0, 0, 0, 0, 0, 20, 0, 0, 0] 0 = none ∧
    findInBlock [0, 0, 0, 0, 0, 0, 0, 0, 20, 0, 0, 0] [97] = none := by
  decide

/-! Xattr key reconstruction (xattrs.rs). -/

/-- Embedding of `xattrs.rs` struct `XAttrEntryHeader`; `name_index` is
the raw byte. -/
structure XAttrEntryHeader where
  suffix_len : Nat
  name_index : Nat
  value_len : Nat
  deriving DecidableEq, Repr

/-- Embedding of `XattrNameIndex::is_long` (`value & 0x80 != 0`). -/
def nameIndexIsLong (n : Nat) : Bool := n &&& 0x80 ≠ 0

/-- Embedding of the `Into<usize>` conversion of `XattrNameIndex`. -/
def nameIndexInto (n : Nat) : Nat := if n &&& 0x80 ≠ 0 then n &&& 0x7f else n

/-- Embedding of `EROFS_XATTRS_PREFIXS` as byte strings. -/
def EROFS_XATTRS_PREFIXS : List (List Nat) :=
  [ []
  , [117, 115, 101, 114, 46]
  , [115, 121, 115, 116, 101, 109, 46, 112, 111, 115, 105, 120, 95, 97, 99, 108,
     95, 97, 99, 99, 101, 115, 115]
  , [115, 121, 115, 116, 101, 109, 46, 112, 111, 115, 105, 120, 95, 97, 99, 108,
     95, 100, 101, 102, 97, 117, 108, 116]
  , [116, 114, 117, 115, 116, 101, 100, 46]
  , []
  , [115, 101, 99, 117, 114, 105, 116, 121, 46] ]

/-- Rust's checked slice assignment `buf[pos..pos+src.len()] = src`:
`none` models the out-of-bounds panic. -/
def writeAt (buf : List Nat) (pos : Nat) (src : List Nat) : Option (List Nat) :=
  if pos + src.length ≤ buf.length then
    some (buf.take pos ++ src ++ buf.drop (pos + src.length))
  else none

/-- Rust's checked element assignment `buf[pos] = v`. -/
def setAt (buf : List Nat) (pos v : Nat) : Option (List Nat) :=
  if pos < buf.length then some (buf.take pos ++ v :: buf.drop (pos + 1)) else none

/-- Embedding of `XAttrEntriesProvider::get_xattr_key` (xattrs.rs lines
159-189).  `pfs` is the image's xattr infix table (each entry one
prefix-selector byte followed by the infix bytes), `stream` the bytes the
skippable iterator would deliver for the suffix, `buffer` the caller's
buffer.  The result is the new buffer contents and the number of bytes
written (`cur + 1`); `none` models a Rust panic: `unwrap` of a missing
infix entry, prefix-table indexing out of range, an out-of-bounds caller
buffer index, or iterator exhaustion inside `read`. -/
def getXattrKey (pfs : List (List Nat)) (header : XAttrEntryHeader)
    (stream : List Nat) (buffer : List Nat) : Option (List Nat × Nat) :=
  let step1 : Option (List Nat × Nat) :=
    if nameIndexIsLong header.name_index then
      match pfs.get? (nameIndexInto header.name_index) with
      | none => none
      | some infx =>
        match infx.head? with
        | none => none
        | some pf =>
          match EROFS_XATTRS_PREFIXS.get? pf with
          | none => none
          | some pre =>
            match writeAt buffer 0 pre with
            | none => none
            | some b1 =>
              match writeAt b1 pre.length infx.tail with
              | none => none
              | some b2 => some (b2, pre.length + infx.tail.length)
    else
      match EROFS_XATTRS_PREFIXS.get? (nameIndexInto header.name_index) with
      | none => none
      | some pre =>
        match writeAt buffer 0 pre with
        | none => none
        | some b1 => some (b1, pre.length)
  match step1 with
  | none => none
  | some (b, cur) =>
    if cur + header.suffix_len ≤ b.length then
      if header.suffix_len ≤ stream.length then
        match writeAt b cur (stream.take header.suffix_len) with
        | none => none
        | some b2 =>
          match setAt b2 (cur + header.suffix_len) 0 with
          | none => none
          | some b3 => some (b3, cur + header.suffix_len + 1)
      else none
    else none

/-- C5: the claim says `list_xattrs` fails with `ERANGE` (rather than any
other outcome) when the caller buffer is too small.  For a short entry
with real prefix `user.` and suffix `x`, an empty caller buffer makes
`get_xattr_key` panic on the slice `buffer[..5]` (modelled `none`); no
`ERANGE` is ever produced on this path.  With a large enough buffer the
key `user.x` plus NUL is written and its length returned, confirming the
emission format. -/
theorem get_xattr_key_small_buffer_panics :
    getXattrKey [] ⟨1, 1, 0⟩ [120] [] = none ∧
    getXattrKey [] ⟨1, 1, 0⟩ [120] (List.replicate 7 0) =
      some ([117, 115, 101, 114, 46, 120, 0], 7) := by
  constructor
  · rfl
  · rfl

/-! Opening an image (superblock/file.rs `ImageFileSystem::try_new`). -/

/-- Sign extension of a raw 16-bit value by Rust's `i16 as u64` cast. -/
def sext16 (v : Nat) : Nat := if v < 2 ^ 15 then v else U64 - (U16 - v)

/-- Sign extension of a raw 32-bit value by Rust's `i32 as u64` cast. -/
def sext32 (v : Nat) : Nat := if v < 2 ^ 31 then v else U64 - (U32 - v)

/-- Embedding of `From<[u8; 128]> for SuperBlock`. -/
def SuperBlock.parse (v : List Nat) : SuperBlock :=
  { magic := le32 (v.getD 0 0) (v.getD 1 0) (v.getD 2 0) (v.getD 3 0)
    checksum := le32 (v.getD 4 0) (v.getD 5 0) (v.getD 6 0) (v.getD 7 0)
    feature_compat := le32 (v.getD 8 0) (v.getD 9 0) (v.getD 10 0) (v.getD 11 0)
    blkszbits := v.getD 12 0
    sb_extslots := v.getD 13 0
    root_nid := le16 (v.getD 14 0) (v.getD 15 0)
    inos := le64 (v.getD 16 0) (v.getD 17 0) (v.getD 18 0) (v.getD 19 0)
      (v.getD 20 0) (v.getD 21 0) (v.getD 22 0) (v.getD 23 0)
    build_time := le64 (v.getD 24 0) (v.getD 25 0) (v.getD 26 0) (v.getD 27 0)
      (v.getD 28 0) (v.getD 29 0) (v.getD 30 0) (v.getD 31 0)
    build_time_nsec := le32 (v.getD 32 0) (v.getD 33 0) (v.getD 34 0) (v.getD 35 0)
    blocks := le32 (v.getD 36 0) (v.getD 37 0) (v.getD 38 0) (v.getD 39 0)
    meta_blkaddr := le32 (v.getD 40 0) (v.getD 41 0) (v.getD 42 0) (v.getD 43 0)
    xattr_blkaddr := le32 (v.getD 44 0) (v.getD 45 0) (v.getD 46 0) (v.getD 47 0)
    uuid := (v.drop 48).take 16
    volume_name := (v.drop 64).take 16
    feature_incompat := le32 (v.getD 80 0) (v.getD 81 0) (v.getD 82 0) (v.getD 83 0)
    compression := le16 (v.getD 84 0) (v.getD 85 0)
    extra_devices := le16 (v.getD 86 0) (v.getD 87 0)
    devt_slotoff := le16 (v.getD 88 0) (v.getD 89 0)
    dirblkbits := v.getD 90 0
    xattr_prefix_count := v.getD 91 0
    xattr_prefix_start := le32 (v.getD 92 0) (v.getD 93 0) (v.getD 94 0) (v.getD 95 0)
    packed_nid := le64 (v.getD 96 0) (v.getD 97 0) (v.getD 98 0) (v.getD 99 0)
      (v.getD 100 0) (v.getD 101 0) (v.getD 102 0) (v.getD 103 0)
    xattr_filter_reserved := v.getD 104 0
    reserved := (v.drop 105).take 23 }

/-- The buffer contents yielded by a `ContinuousTempBufferIter` over a
fully readable image: each step yields the bytes from the cursor to the
4096-byte temp-block boundary (clamped by the remaining length), exactly
`Source::get_temp_buffer` over `TempBlockAccessor`.  The loop is encoded
with fuel `len` (each step consumes at least one byte). -/
def contBufsImgGo (img : Nat → Nat) : Nat → Nat → Nat → List (List Nat)
  | _, _, 0 => []
  | offset, len, fuel + 1 =>
    if len = 0 then []
    else
      let clen := min (4096 - offset % 4096) len
      ((List.range clen).map (fun i => img (offset + i))) ::
        contBufsImgGo img (offset + clen) (len - clen) fuel

def contBufsImg (img : Nat → Nat) (offset len : Nat) : List (List Nat) :=
  contBufsImgGo img offset len len

/-- Embedding of the per-buffer loop of `get_xattr_infixes`
(operations.rs lines 103-121): `while cur <= len` reads a 2-byte size and
the following bytes, 4-byte aligned.  Unchecked indexing past the buffer
is a panic (`none`).  Fuel `buf.length + 1` bounds the iterations (each
one advances `cur` by at least 2). -/
def parseInfixGo (buf : List Nat) : Nat → Nat → Option (List (List Nat))
  | _, 0 => none
  | cur, fuel + 1 =>
    if cur ≤ buf.length then
      if cur + 2 ≤ buf.length then
        let size := le16 (buf.getD cur 0) (buf.getD (cur + 1) 0)
        if cur + 2 + size ≤ buf.length then
          match parseInfixGo buf (roundUp (cur + 2 + size) 4) fuel with
          | none => none
          | some rest => some (((buf.drop (cur + 2)).take size) :: rest)
        else none
      else none
    else some []

def getXattrInfixes (bufs : List (List Nat)) : Option (List (List Nat)) :=
  match bufs with
  | [] => some []
  | b :: rest =>
    match parseInfixGo b 0 (b.length + 1), getXattrInfixes rest with
    | some xs, some ys => some (xs ++ ys)
    | _, _ => none

/-- Embedding of the fields of `ImageFileSystem` built by `try_new`. -/
structure ImageFileSystem where
  sb : SuperBlock
  infixes : List (List Nat)
  device_info : DeviceInfo
  deriving DecidableEq, Repr

/-- Embedding of `ImageFileSystem::try_new` (superblock/file.rs lines
71-94) over a fully readable image (`img` maps byte offsets to bytes, so
backend reads never fail): read 128 bytes at offset 1024, decode the
superblock, load the xattr infix table and the device table, and return
the filesystem.  No field of the superblock — in particular not the
magic — is validated.  `none` models a panic inside the infix-table
parse. -/
def tryNew (img : Nat → Nat) : Option (Except Errno ImageFileSystem) :=
  let buf := (List.range 128).map (fun i => img (1024 + i))
  let sb := SuperBlock.parse buf
  match getXattrInfixes (contBufsImg img (sext32 sb.xattr_prefix_start)
      (sb.xattr_prefix_count * 4)) with
  | none => none
  | some ifs =>
    let di := getDeviceInfos (contBufsImg img (sext16 sb.devt_slotoff * 128 % U64)
      (sext16 sb.extra_devices * 128 % U64))
    some (Except.ok { sb := sb, infixes := ifs, device_info := di })

/-- Concrete fixture: an image whose bytes are all zero; its superblock
magic is 0, not the EROFS constant. -/
def zeroImage : Nat → Nat := fun _ => 0

/-- C2: the claim says opening verifies the superblock magic against
0xE0F5E1E2 and fails with `EINVAL` on mismatch.  The code never checks
the magic: opening the all-zero image (magic 0) succeeds and returns a
filesystem handle instead of `Err(EINVAL)`. -/
theorem try_new_accepts_bad_magic :
    tryNew zeroImage =
      some (Except.ok
        { sb := SuperBlock.parse (List.replicate 128 0)
          infixes := []
          device_info := { mask := 0, specs := [] } }) ∧
    (SuperBlock.parse (List.replicate 128 0)).magic = 0 ∧
    (0 : Nat) ≠ 0xE0F5E1E2 := by
  refine ⟨?_, by decide, by decide⟩
  rfl

/-! Buffer iterators and error behaviour (map.rs, ref_iter.rs). -/

/-- State of `ContinuousRefIter` (ref_iter.rs): cursor and remaining
length; the superblock and the memory backend's `as_buf` are passed to
each step. -/
structure ContRefIter where
  offset : Nat
  len : Nat
  deriving DecidableEq, Repr

/-- Embedding of `ContinuousRefIter::next` (ref_iter.rs lines 93-114):
at end of range the iterator stops (`none`); otherwise it asks the
backend for the block-clamped slice; a backend error is yielded as an
`Err` item and — as in the code, which updates `offset`/`len` only in the
`Ok` closure — leaves the iterator state unchanged. -/
def contRefIterNext (sb : SuperBlock) (asBuf : Nat → Nat → Except Errno (List Nat))
    (s : ContRefIter) : Option (Except Errno (List Nat) × ContRefIter) :=
  if s.len = 0 then none
  else
    let accessor := sb.blk_access s.offset
    let len := min accessor.len s.len
    match asBuf s.offset len with
    | Except.error e => some (Except.error e, s)
    | Except.ok buf =>
        some (Except.ok buf, { offset := s.offset + len, len := s.len - len })

/-- Concrete fixture: a regular-looking compact inode whose mode bits
make `spec()` return `Unknown`, so `map` fails with `EUCLEAN`. -/
def inodeBadSpec : Inode :=
  { info := InodeInfo.Compact
      { i_format := ⟨0⟩, i_xattr_icount := 0, i_mode := 0, i_nlink := 1
        i_size := 1, i_u := [0, 0, 0, 0], i_ino := 3, i_uid := 0, i_gid := 0 }
    nid := 4 }

/-- Concrete fixture: a memory backend whose `as_buf` always fails. -/
def asBufFail : Nat → Nat → Except Errno (List Nat) := fun _ _ => Except.error Errno.EIO

/-- C6: the claim says an error from `map` is yielded to the caller as an
`Err` item and the iterator then terminates, and that `MapIter` does not
silently convert a `map` error into end-of-iteration.  On the code:
`map` fails with `EUCLEAN` at offset 0 of this inode, yet
`MapIter::next` returns `None` (end of iteration, `some none` in the
step model) — the error is swallowed.  Moreover `ContinuousRefIter`
yields the backend error as an `Err` item but leaves its state unchanged,
so the very same next call yields the same `Err` again: the iterator does
not terminate after its first `Err`. -/
theorem map_iter_error_handling_diverges :
    (fsMap sbFix diEmpty backendZero inodeBadSpec 0 =
      some (Except.error Errno.EUCLEAN) ∧
     mapIterStep sbFix diEmpty backendZero inodeBadSpec 0 1 = some none) ∧
    contRefIterNext sbFix asBufFail ⟨0, 10⟩ =
      some (Except.error Errno.EIO, ⟨0, 10⟩) :=
  ⟨⟨rfl, rfl⟩, rfl⟩

/-! SkippableContinousIter (data/raw_iters.rs): `read` and `try_cmp`
over a concatenation of buffers.  The underlying continuous iterator is
modelled as the list of buffer contents it has yet to yield (an error-free
run, as the claim's proviso demands); `unwrap` of an exhausted iterator
is the outer `none`. -/

/-- The state of `SkippableContinousIter`: current buffer contents, the
cursor into it, and the remaining buffers of the underlying iterator. -/
structure SkipIterState where
  data : List Nat
  cur : Nat
  bufs : List (List Nat)
  deriving DecidableEq, Repr

/-- The buffer-pulling loop inside `read` (`while bcur < blen`), entered
with `need = blen - bcur > 0` bytes still missing: returns the bytes read
from the pulled buffers and the final state. -/
def readAux : List (List Nat) → Nat → Option (List Nat × SkipIterState)
  | [], _ => none
  | d :: rest, need =>
    if need ≤ d.length then some (d.take need, ⟨d, need, rest⟩)
    else
      match readAux rest (need - d.length) with
      | none => none
      | some (bs, s') => some (d ++ bs, s')

/-- Embedding of `SkippableContinousIter::read` (raw_iters.rs lines
123-153), returning the bytes placed into `buf` and the new state. -/
def SkipIterState.read (s : SkipIterState) (blen : Nat) :
    Option (List Nat × SkipIterState) :=
  let dlen := s.data.length - s.cur
  if dlen ≠ 0 ∧ blen ≤ dlen then
    some ((s.data.drop s.cur).take blen, ⟨s.data, s.cur + blen, s.bufs⟩)
  else if blen ≤ dlen then
    some ([], s)
  else
    match readAux s.bufs (blen - dlen) with
    | none => none
    | some (bs, s') => some ((s.data.drop s.cur) ++ bs, s')

/-- The buffer-pulling loop inside `try_cmp` (`while bcur < blen`),
entered with the reference bytes `r` still to compare (`r ≠ []`).
`some none` is the `NotEqual` outcome; `some (some s)` is `Ok` ending in
state `s`. -/
def tryCmpAux : List (List Nat) → List Nat → Option (Option SkipIterState)
  | [], _ => none
  | d :: rest, r =>
    let clen := min d.length r.length
    if d.take clen = r.take clen then
      if r.length ≤ d.length then some (some ⟨d, clen, rest⟩)
      else tryCmpAux rest (r.drop clen)
    else some none

/-- Embedding of `SkippableContinousIter::try_cmp` (raw_iters.rs lines
155-185). -/
def SkipIterState.tryCmp (s : SkipIterState) (r : List Nat) :
    Option (Option SkipIterState) :=
  let dlen := s.data.length - s.cur
  let blen := r.length
  if dlen ≠ 0 ∧ blen ≤ dlen then
    if (s.data.drop s.cur).take blen = r then
      some (some ⟨s.data, s.cur + blen, s.bufs⟩)
    else some none
  else if dlen ≠ 0 then
    if s.data.drop s.cur = r.take dlen then tryCmpAux s.bufs (r.drop dlen)
    else some none
  else if blen = 0 then some (some s)
  else tryCmpAux s.bufs r

theorem take_app (l1 l2 : List Nat) (n : Nat) :
    (l1 ++ l2).take (l1.length + n) = l1 ++ l2.take n := by
  rw [List.take_add, List.take_left, List.drop_left]

theorem drop_app (l1 l2 : List Nat) (n : Nat) :
    (l1 ++ l2).drop (l1.length + n) = l2.drop n := by
  induction l1 with
  | nil => simp
  | cons a t ih => simp [Nat.succ_add, ih]

theorem tryCmp_within (s : SkipIterState) (r : List Nat)
    (h1 : s.data.length - s.cur ≠ 0) (h2 : r.length ≤ s.data.length - s.cur) :
    s.tryCmp r =
      if (s.data.drop s.cur).take r.length = r then
        some (some ⟨s.data, s.cur + r.length, s.bufs⟩)
      else some none := by
  unfold SkipIterState.tryCmp
  rw [if_pos ⟨h1, h2⟩]

theorem tryCmp_cross (s : SkipIterState) (r : List Nat)
    (h1 : s.data.length - s.cur ≠ 0) (h2 : ¬ r.length ≤ s.data.length - s.cur) :
    s.tryCmp r =
      if s.data.drop s.cur = r.take (s.data.length - s.cur) then
        tryCmpAux s.bufs (r.drop (s.data.length - s.cur))
      else some none := by
  unfold SkipIterState.tryCmp
  rw [if_neg (by intro hc; exact h2 hc.2), if_pos h1]

theorem tryCmp_exhausted_nil (s : SkipIterState)
    (h1 : s.data.length - s.cur = 0) :
    s.tryCmp [] = some (some s) := by
  unfold SkipIterState.tryCmp
  rw [if_neg (by intro hc; exact hc.1 h1), if_neg (by simpa using h1)]
  rfl

theorem tryCmp_exhausted (s : SkipIterState) (r : List Nat)
    (h1 : s.data.length - s.cur = 0) (h2 : r ≠ []) :
    s.tryCmp r = tryCmpAux s.bufs r := by
  unfold SkipIterState.tryCmp
  rw [if_neg (by intro hc; exact hc.1 h1), if_neg (by simpa using h1),
    if_neg (by simpa using List.length_pos.mpr h2 |>.ne')]

theorem take_app_of_length (l1 l2 : List Nat) (k n : Nat) (hk : l1.length = k) :
    (l1 ++ l2).take (k + n) = l1 ++ l2.take n := by
  subst hk; exact take_app l1 l2 n

theorem drop_app_of_length (l1 l2 : List Nat) (k n : Nat) (hk : l1.length = k) :
    (l1 ++ l2).drop (k + n) = l2.drop n := by
  subst hk; exact drop_app l1 l2 n

theorem readAux_length (bufs : List (List Nat)) :
    ∀ need bs s', readAux bufs need = some (bs, s') → bs.length = need := by
  induction bufs with
  | nil => intro need bs s' h; cases h
  | cons d rest ih =>
    intro need bs s' h
    unfold readAux at h
    by_cases hle : need ≤ d.length
    · rw [if_pos hle] at h
      cases h
      simp [List.length_take]
      omega
    · rw [if_neg hle] at h
      cases hr : readAux rest (need - d.length) with
      | none => rw [hr] at h; cases h
      | some p =>
        obtain ⟨bs', s2⟩ := p
        rw [hr] at h
        cases h
        have hlen := ih (need - d.length) bs' s' hr
        simp [List.length_append, hlen]
        omega

theorem readAux_tryCmpAux (bufs : List (List Nat)) :
    ∀ need bs s', readAux bufs need = some (bs, s') → 0 < need →
      ∀ r, tryCmpAux bufs (bs ++ r) = s'.tryCmp r := by
  induction bufs with
  | nil => intro need bs s' h; cases h
  | cons d rest ih =>
    intro need bs s' h hpos r
    unfold readAux at h
    by_cases hle : need ≤ d.length
    · rw [if_pos hle] at h
      cases h
      -- bs = d.take need, s' = ⟨d, need, rest⟩
      have hbs : (d.take need).length = need := by simp [List.length_take]; omega
      have hL : (d.take need ++ r).length = need + r.length := by
        simp [List.length_append, hbs]
      unfold tryCmpAux
      by_cases hsmall : need + r.length ≤ d.length
      · have hclen : min d.length (d.take need ++ r).length = need + r.length := by
          rw [hL]; omega
        simp only [hclen]
        have htake1 : (d.take need ++ r).take (need + r.length) = d.take need ++ r := by
          rw [← hL, List.take_length]
        have htake2 : d.take (need + r.length) = d.take need ++ (d.drop need).take r.length := by
          rw [List.take_add]
        rw [htake1, htake2]
        by_cases hC : (d.drop need).take r.length = r
        · rw [if_pos (by rw [hC]), if_pos (by rw [hL]; exact hsmall)]
          -- RHS
          by_cases hrz : r.length = 0
          · have hr0 : r = [] := List.length_eq_zero.mp hrz
            subst hr0
            by_cases hd0 : d.length - need = 0
            · rw [tryCmp_exhausted_nil ⟨d, need, rest⟩ hd0]
              rfl
            · rw [tryCmp_within ⟨d, need, rest⟩ [] hd0 (by simp)]
              rw [if_pos (by simp)]
          · rw [tryCmp_within ⟨d, need, rest⟩ r
              (by show d.length - need ≠ 0; omega)
              (by show r.length ≤ d.length - need; omega)]
            rw [if_pos hC]
        · rw [if_neg (by
            intro hc
            exact hC ((List.append_right_inj (d.take need)).mp hc))]
          have hrz : r.length ≠ 0 := by
            intro hz
            have : r = [] := List.length_eq_zero.mp hz
            subst this
            simp at hC
          rw [tryCmp_within ⟨d, need, rest⟩ r
            (by show d.length - need ≠ 0; omega)
            (by show r.length ≤ d.length - need; omega)]
          rw [if_neg hC]
      · -- the reference continues past the pulled buffer
        have hclen : min d.length (d.take need ++ r).length = d.length := by
          rw [hL]; omega
        simp only [hclen]
        have htake1 : (d.take need ++ r).take d.length =
            d.take need ++ r.take (d.length - need) := by
          conv_lhs => rw [show d.length = need + (d.length - need) by omega]
          exact take_app_of_length _ _ _ _ hbs
        have htake2 : d.take d.length = d.take need ++ d.drop need := by
          rw [List.take_length, List.take_append_drop]
        rw [htake1, htake2]
        by_cases hC : d.drop need = r.take (d.length - need)
        · rw [if_pos (by rw [hC]), if_neg (by rw [hL]; omega)]
          have hdrop : (d.take need ++ r).drop d.length = r.drop (d.length - need) := by
            conv_lhs => rw [show d.length = need + (d.length - need) by omega]
            exact drop_app_of_length _ _ _ _ hbs
          rw [hdrop]
          by_cases hd0 : d.length - need = 0
          · -- the pulled buffer was consumed exactly by the first read
            rw [hd0, List.drop_zero]
            have hrpos : r ≠ [] := by
              intro hz; subst hz; simp at hsmall; omega
            rw [tryCmp_exhausted ⟨d, need, rest⟩ r hd0 hrpos]
          · rw [tryCmp_cross ⟨d, need, rest⟩ r hd0 (by show ¬ r.length ≤ d.length - need; omega)]
            rw [if_pos hC]
        · rw [if_neg (by
            intro hc
            exact hC ((List.append_right_inj (d.take need)).mp hc))]
          have hd0 : d.length - need ≠ 0 := by
            intro hz
            apply hC
            have : d.length = need := by omega
            simp [this]
          rw [tryCmp_cross ⟨d, need, rest⟩ r hd0 (by show ¬ r.length ≤ d.length - need; omega)]
          rw [if_neg hC]
    · rw [if_neg hle] at h
      cases hr : readAux rest (need - d.length) with
      | none => rw [hr] at h; cases h
      | some p =>
        obtain ⟨bs', s2⟩ := p
        rw [hr] at h
        cases h
        have hlen' : bs'.length = need - d.length := readAux_length rest _ _ _ hr
        have hih := ih (need - d.length) bs' s' hr (by omega)
        unfold tryCmpAux
        have hassoc : d ++ bs' ++ r = d ++ (bs' ++ r) := by
          rw [List.append_assoc]
        rw [hassoc]
        have hclen : min d.length (d ++ (bs' ++ r)).length = d.length := by
          simp [List.length_append]
        simp only [hclen]
        rw [List.take_length, List.take_left, if_pos rfl]
        rw [if_neg (by simp only [List.length_append]; omega)]
        rw [List.drop_left]
        exact hih r

/-- C8: `read(buf)` followed by `try_cmp(ref)` is equivalent to
`try_cmp(buf ++ ref)`: if `read` succeeds and fills `buf` with the bytes
`bs`, then comparing `bs ++ ref` from the original state gives the same
outcome — the same success result and the same final cursor state — as
comparing `ref` from the post-read state.  (The underlying iterator is
modelled error-free, matching the claim's proviso that no error occurs;
an exhaustion panic is `none` and the equality covers that case too.) -/
theorem read_then_try_cmp (s : SkipIterState) (n : Nat) (bs : List Nat)
    (s₁ : SkipIterState) (h : s.read n = some (bs, s₁)) (r : List Nat) :
    s.tryCmp (bs ++ r) = s₁.tryCmp r := by
  unfold SkipIterState.read at h
  by_cases hb1 : s.data.length - s.cur ≠ 0 ∧ n ≤ s.data.length - s.cur
  · rw [if_pos hb1] at h
    cases h
    -- bs = (s.data.drop s.cur).take n, s₁ = ⟨s.data, s.cur + n, s.bufs⟩
    have hdl : (s.data.drop s.cur).length = s.data.length - s.cur := by
      simp [List.length_drop]
    have hbs : ((s.data.drop s.cur).take n).length = n := by
      simp [List.length_take, List.length_drop]; omega
    have hdd : (s.data.drop s.cur).drop n = s.data.drop (s.cur + n) := by
      rw [List.drop_drop, Nat.add_comm]
    by_cases hsm : n + r.length ≤ s.data.length - s.cur
    · rw [tryCmp_within s _ hb1.1
        (by simp only [List.length_append, hbs]; omega)]
      simp only [List.length_append, hbs]
      have htk : (s.data.drop s.cur).take (n + r.length) =
          (s.data.drop s.cur).take n ++ (s.data.drop (s.cur + n)).take r.length := by
        rw [List.take_add, hdd]
      rw [htk]
      by_cases hC : (s.data.drop (s.cur + n)).take r.length = r
      · rw [if_pos (by rw [hC])]
        by_cases hrz : r.length = 0
        · have hr0 : r = [] := List.length_eq_zero.mp hrz
          subst hr0
          by_cases hd0 : s.data.length - (s.cur + n) = 0
          · rw [tryCmp_exhausted_nil ⟨s.data, s.cur + n, s.bufs⟩ hd0]
            simp
          · rw [tryCmp_within ⟨s.data, s.cur + n, s.bufs⟩ []
              hd0 (by simp)]
            rw [if_pos (by simp)]
            simp [Nat.add_assoc]
        · rw [tryCmp_within ⟨s.data, s.cur + n, s.bufs⟩ r
            (by show s.data.length - (s.cur + n) ≠ 0; omega)
            (by show r.length ≤ s.data.length - (s.cur + n); omega)]
          rw [if_pos hC, Nat.add_assoc]
      · rw [if_neg (by
          intro hc
          exact hC ((List.append_right_inj ((s.data.drop s.cur).take n)).mp hc))]
        have hrz : r.length ≠ 0 := by
          intro hz
          have : r = [] := List.length_eq_zero.mp hz
          subst this
          simp at hC
        rw [tryCmp_within ⟨s.data, s.cur + n, s.bufs⟩ r
          (by show s.data.length - (s.cur + n) ≠ 0; omega)
          (by show r.length ≤ s.data.length - (s.cur + n); omega)]
        rw [if_neg hC]
    · rw [tryCmp_cross s _ hb1.1
        (by simp only [List.length_append, hbs]; omega)]
      have hsplit : s.data.drop s.cur =
          (s.data.drop s.cur).take n ++ s.data.drop (s.cur + n) := by
        rw [← hdd, List.take_append_drop]
      have htk : ((s.data.drop s.cur).take n ++ r).take (s.data.length - s.cur) =
          (s.data.drop s.cur).take n ++ r.take (s.data.length - s.cur - n) := by
        conv_lhs => rw [show s.data.length - s.cur = n + (s.data.length - s.cur - n) by omega]
        exact take_app_of_length _ _ _ _ hbs
      have hdr : ((s.data.drop s.cur).take n ++ r).drop (s.data.length - s.cur) =
          r.drop (s.data.length - s.cur - n) := by
        conv_lhs => rw [show s.data.length - s.cur = n + (s.data.length - s.cur - n) by omega]
        exact drop_app_of_length _ _ _ _ hbs
      rw [htk, hdr]
      by_cases hC : s.data.drop (s.cur + n) = r.take (s.data.length - s.cur - n)
      · have hcond : s.data.drop s.cur =
            (s.data.drop s.cur).take n ++ r.take (s.data.length - s.cur - n) := by
          conv_lhs => rw [hsplit]
          rw [hC]
        rw [if_pos hcond]
        by_cases hd0 : s.data.length - s.cur - n = 0
        · rw [hd0, List.drop_zero]
          have hrpos : r ≠ [] := by
            intro hz; subst hz; simp at hsm; omega
          rw [tryCmp_exhausted ⟨s.data, s.cur + n, s.bufs⟩ r
            (by show s.data.length - (s.cur + n) = 0; omega) hrpos]
        · rw [tryCmp_cross ⟨s.data, s.cur + n, s.bufs⟩ r
            (by show s.data.length - (s.cur + n) ≠ 0; omega)
            (by show ¬ r.length ≤ s.data.length - (s.cur + n); omega)]
          rw [show s.data.length - (s.cur + n) = s.data.length - s.cur - n from by omega]
          rw [if_pos hC]
      · have hcond : ¬ (s.data.drop s.cur =
            (s.data.drop s.cur).take n ++ r.take (s.data.length - s.cur - n)) := by
          intro hc
          apply hC
          exact (List.append_right_inj ((s.data.drop s.cur).take n)).mp
            (hsplit.symm.trans hc)
        rw [if_neg hcond]
        have hd0 : s.data.length - s.cur - n ≠ 0 := by
          intro hz
          apply hC
          have h1 : s.data.drop (s.cur + n) = [] := by
            apply List.drop_eq_nil_of_le
            omega
          rw [h1, hz]
          simp
        rw [tryCmp_cross ⟨s.data, s.cur + n, s.bufs⟩ r
          (by show s.data.length - (s.cur + n) ≠ 0; omega)
          (by show ¬ r.length ≤ s.data.length - (s.cur + n); omega)]
        rw [show s.data.length - (s.cur + n) = s.data.length - s.cur - n from by omega]
        rw [if_neg hC]
  · rw [if_neg hb1] at h
    by_cases hb2 : n ≤ s.data.length - s.cur
    · rw [if_pos hb2] at h
      cases h
      rfl
    · rw [if_neg hb2] at h
      cases hr : readAux s.bufs (n - (s.data.length - s.cur)) with
      | none => rw [hr] at h; cases h
      | some p =>
        obtain ⟨bs2, s2⟩ := p
        rw [hr] at h
        cases h
        have hlen2 : bs2.length = n - (s.data.length - s.cur) :=
          readAux_length s.bufs _ _ _ hr
        have haux := readAux_tryCmpAux s.bufs _ _ _ hr (by omega) r
        have hassoc : s.data.drop s.cur ++ bs2 ++ r =
            s.data.drop s.cur ++ (bs2 ++ r) := by
          rw [List.append_assoc]
        rw [hassoc]
        have hdl : (s.data.drop s.cur).length = s.data.length - s.cur := by
          simp [List.length_drop]
        by_cases hd0 : s.data.length - s.cur = 0
        · have hdnil : s.data.drop s.cur = [] := by
            apply List.eq_nil_of_length_eq_zero
            rw [hdl, hd0]
          rw [hdnil, List.nil_append]
          rw [tryCmp_exhausted s (bs2 ++ r) hd0
            (by simp only [← List.length_pos, List.length_append]; omega)]
          exact haux
        · rw [tryCmp_cross s _ hd0
            (by simp only [List.length_append, hdl]; omega)]
          rw [List.take_left' hdl, if_pos rfl, List.drop_left' hdl]
          exact haux

/-- Concrete fixture: a skippable-iterator state mid-buffer with one
buffer still queued. -/
def skipFix : SkipIterState := ⟨[1, 2, 3], 0, [[4, 5]]⟩

theorem read_then_try_cmp_witness :
    skipFix.tryCmp ([1, 2] ++ [3, 4]) =
      SkipIterState.tryCmp ⟨[1, 2, 3], 2, [[4, 5]]⟩ [3, 4] :=
  read_then_try_cmp skipFix 2 [1, 2] ⟨[1, 2, 3], 2, [[4, 5]]⟩ rfl [3, 4]

end Erofs
